import Mathlib

/-!
# Ransomware-Groups-Statistics-Extractor — verification development

Shallow embedding of `ransomware_group_statistics.py`: the fetcher
(`get_victims_by_group`), the aggregator (`process_victims`), the three
presenters (`print_monthly_summary`, `build_json_output`,
`write_csv_output`) and the driver (`main`), together with theorems about
them.

Modelling conventions:
* A victim record is a JSON object; only the three fields the program
  reads are modelled, each as `Option String` (`none` = absent or null;
  the expected schema per the API is optional string fields).
* Python `dict` / `collections.Counter` / `defaultdict` are modelled as
  insertion-ordered association lists; `Counter[k] += 1` updates the
  entry in place (keeping its position) or appends a fresh key at the
  end, exactly as Python dicts behave.
* `defaultdict` lookups that may insert a default value on a miss are
  modelled as state-passing operations returning the (possibly updated)
  mapping, so that "mutation-on-read" during rendering is visible.
* Effects (HTTP, printing, file writes) are made explicit: the fetch
  outcome is an input, printed lines and file writes are collected in
  the result.
-/

/-- One victim record as consumed by the program: only the fields
`discovered`, `activity` and `country` are ever read (via `.get`). -/
structure Victim where
  discovered : Option String
  activity : Option String
  country : Option String
deriving DecidableEq, Repr

/-! ## ISO-8601 parsing (`datetime.fromisoformat`) and `strftime("%Y-%m")` -/

/-- Digit value of a character, `none` if not an ASCII digit. -/
def dig (c : Char) : Option Nat :=
  if 48 ≤ c.toNat ∧ c.toNat ≤ 57 then some (c.toNat - 48) else none

/-- Read exactly two digits. -/
def dig2 : List Char → Option (Nat × List Char)
  | a :: b :: r =>
    match dig a, dig b with
    | some x, some y => some (x * 10 + y, r)
    | _, _ => none
  | _ => none

/-- Read exactly four digits. -/
def dig4 (cs : List Char) : Option (Nat × List Char) :=
  match dig2 cs with
  | some (hi, r) => (dig2 r).map (fun p => (hi * 100 + p.1, p.2))
  | none => none

/-- Expect a given literal character. -/
def expectChar (c : Char) : List Char → Option (List Char)
  | x :: r => if x = c then some r else none
  | [] => none

/-- Leap-year test (proleptic Gregorian, as Python's `datetime`). -/
def isLeap (y : Nat) : Bool :=
  (y % 4 == 0 && y % 100 != 0) || (y % 400 == 0)

/-- Number of days in a month. -/
def daysInMonth (y m : Nat) : Nat :=
  if m = 2 then (if isLeap y then 29 else 28)
  else if m = 4 ∨ m = 6 ∨ m = 9 ∨ m = 11 then 30
  else 31

/-- Is `c` an ASCII digit? -/
def isDig (c : Char) : Bool := 48 ≤ c.toNat && c.toNat ≤ 57

/-- Consume one or more digits (a fractional-seconds field). -/
def digits1 : List Char → Option (List Char)
  | c :: r => if isDig c then some (r.dropWhile isDig) else none
  | [] => none

/-- Parse a time-of-day `HH[:MM[:SS[.f+]]]`, validating ranges; returns
the unconsumed rest (a possible UTC-offset suffix). -/
def parseTime (cs : List Char) : Option (List Char) :=
  match dig2 cs with
  | none => none
  | some (hh, r) =>
    if hh ≥ 24 then none else
    match r with
    | ':' :: r2 =>
      match dig2 r2 with
      | none => none
      | some (mm, r3) =>
        if mm ≥ 60 then none else
        match r3 with
        | ':' :: r4 =>
          match dig2 r4 with
          | none => none
          | some (ss, r5) =>
            if ss ≥ 60 then none else
            match r5 with
            | c :: r6 => if c = '.' ∨ c = ',' then digits1 r6 else some r5
            | [] => some []
        | _ => some r3
    | _ => some r

/-- Parse an optional UTC offset: empty, `Z`/`z`, or `±HH[:MM[:SS[.f+]]]`;
`true` iff the whole rest is a valid offset. -/
def parseTz : List Char → Bool
  | [] => true
  | c :: r =>
    if c = 'Z' ∨ c = 'z' then r.isEmpty
    else if c = '+' ∨ c = '-' then
      match parseTime r with
      | some [] => true
      | _ => false
    else false

/-- Model of `datetime.fromisoformat` (core grammar accepted by Python:
`YYYY-MM-DD`, optionally a single separator character followed by a
time-of-day and an optional UTC offset; exotic compact forms such as
`YYYYMMDD` are outside the modelled subset).  Returns the `(year, month)`
the program then formats with `strftime("%Y-%m")`; `none` models the
parse raising. -/
def fromisoformat (s : String) : Option (Nat × Nat) :=
  let cs := s.data
  match dig4 cs with
  | none => none
  | some (y, r1) =>
    if y = 0 then none else
    match expectChar '-' r1 with
    | none => none
    | some r2 =>
      match dig2 r2 with
      | none => none
      | some (m, r3) =>
        if m = 0 ∨ m > 12 then none else
        match expectChar '-' r3 with
        | none => none
        | some r4 =>
          match dig2 r4 with
          | none => none
          | some (d, r5) =>
            if d = 0 ∨ d > daysInMonth y m then none else
            match r5 with
            | [] => some (y, m)
            | _sep :: r6 =>
              match parseTime r6 with
              | none => none
              | some tzrest => if parseTz tzrest then some (y, m) else none

/-- Zero-pad a number to a given width. -/
def padNat (w n : Nat) : String :=
  let s := toString n
  (List.replicate (w - s.length) '0').asString ++ s

/-- `dt.strftime("%Y-%m")`. -/
def month_key (y m : Nat) : String :=
  padNat 4 y ++ "-" ++ padNat 2 m

/-! ## The aggregator `process_victims` -/

/-- `victim.get(f) or "Not Identified"`: Python's `or` replaces a falsy
value (absent field, `None`, or the empty string) by the default. -/
def orNotIdentified : Option String → String
  | none => "Not Identified"
  | some s => if s = "" then "Not Identified" else s

/-- The month key a record is aggregated under, or `none` when the
record is skipped (`discovered` absent/falsy, or `fromisoformat`
raises). -/
def monthKeyOf (v : Victim) : Option String :=
  match v.discovered with
  | none => none
  | some s =>
    if s = "" then none
    else (fromisoformat s).map (fun ym => month_key ym.1 ym.2)

/-- A `collections.Counter`: insertion-ordered string → count map. -/
abbrev CountMap := List (String × Nat)

/-- `Counter[k] += 1`: bump the first entry with key `k` in place, or
append `(k, 1)` when absent. -/
def incr : CountMap → String → CountMap
  | [], k => [(k, 1)]
  | (k', v) :: rest, k =>
    if k' = k then (k', v + 1) :: rest else (k', v) :: incr rest k

/-- `defaultdict(Counter)[c][s] += 1`. -/
def csIncr : List (String × CountMap) → String → String → List (String × CountMap)
  | [], c, s => [(c, incr [] s)]
  | (c', cm) :: rest, c, s =>
    if c' = c then (c', incr cm s) :: rest else (c', cm) :: csIncr rest c s

/-- The per-month aggregate built by `process_victims`. -/
structure MonthlyAggregate where
  total : Nat
  sectors : CountMap
  countries : CountMap
  country_sectors : List (String × CountMap)
deriving DecidableEq, Repr

/-- The default value of the outer `defaultdict`. -/
def emptyAgg : MonthlyAggregate :=
  { total := 0, sectors := [], countries := [], country_sectors := [] }

/-- The full aggregation: insertion-ordered month-key → aggregate map. -/
abbrev MonthlyData := List (String × MonthlyAggregate)

/-- The four increments the loop body performs for one aggregated record. -/
def updateAgg (a : MonthlyAggregate) (s c : String) : MonthlyAggregate :=
  { total := a.total + 1
    sectors := incr a.sectors s
    countries := incr a.countries c
    country_sectors := csIncr a.country_sectors c s }

/-- `monthly_data[month_key]` mutation for one record: update the
existing month in place, or append a fresh default-then-updated one. -/
def mdUpdate : MonthlyData → String → String → String → MonthlyData
  | [], mk, s, c => [(mk, updateAgg emptyAgg s c)]
  | (mk', a) :: rest, mk, s, c =>
    if mk' = mk then (mk', updateAgg a s c) :: rest
    else (mk', a) :: mdUpdate rest mk s c

/-- One iteration of the `for victim in victims` loop. -/
def stepVictim (md : MonthlyData) (v : Victim) : MonthlyData :=
  match monthKeyOf v with
  | none => md
  | some mk => mdUpdate md mk (orNotIdentified v.activity) (orNotIdentified v.country)

/-- `process_victims`: fold the loop body over the record list. -/
def process_victims (victims : List Victim) : MonthlyData :=
  victims.foldl stepVictim []

/-! ## Ranking: `Counter.most_common(n)` and `sorted(...)`

`Counter.most_common(n)` is `heapq.nlargest(n, items, key=count)`: a
stable sort by descending count over the counter's insertion order,
truncated to `n`.  We embed the stable sort as an insertion sort by a
"must come strictly before" predicate. -/

/-- Insert `x` immediately before the first element `y` with `lt x y`. -/
def insertBy (lt : α → α → Bool) (x : α) : List α → List α
  | [] => [x]
  | y :: ys => if lt x y then x :: y :: ys else y :: insertBy lt x ys

/-- Stable insertion sort: earlier elements are inserted last, so an
earlier element ends up before any later element it ties with. -/
def sortBy (lt : α → α → Bool) (l : List α) : List α :=
  l.foldr (insertBy lt) []

/-- Ordering used by `most_common`: an earlier entry goes before a later
one exactly when its count is ≥ (descending counts, ties kept in
first-insertion order). -/
def cntBefore (a b : String × Nat) : Bool := b.2 ≤ a.2

/-- `Counter.most_common(n)`. -/
def mostCommon (m : CountMap) (n : Nat) : List (String × Nat) :=
  (sortBy cntBefore m).take n

/-- Strict lexicographic comparison on code points, as Python compares
strings. -/
def charsLt : List Char → List Char → Bool
  | _, [] => false
  | [], _ :: _ => true
  | a :: as, b :: bs =>
    if a.toNat < b.toNat then true
    else if b.toNat < a.toNat then false
    else charsLt as bs

/-- `a < b` on strings. -/
def strBefore (a b : String) : Bool := charsLt a.data b.data

/-- `sorted(d)`: the mapping's keys in ascending order. -/
def sortedKeys (l : List String) : List String := sortBy strBefore l

/-! ## Presenters

`monthly_data` is a `defaultdict` and each `country_sectors` is a
`defaultdict(Counter)`: indexing them inserts a default value on a miss.
The presenters index both, so we model those reads as state-passing
(`mdGet`, `csGet`) and write the possibly-extended nested mapping back
(`mdSet`), which is what Python's reference semantics do in place. -/

/-- `d[c]` on a `defaultdict(Counter)`: the value plus the possibly
extended mapping (a miss appends `(c, Counter())`). -/
def csGet : List (String × CountMap) → String → CountMap × List (String × CountMap)
  | [], c => ([], [(c, [])])
  | (c', cm) :: rest, c =>
    if c' = c then (cm, (c', cm) :: rest)
    else
      let r := csGet rest c
      (r.1, (c', cm) :: r.2)

/-- `monthly_data[mk]` on the outer `defaultdict`. -/
def mdGet : MonthlyData → String → MonthlyAggregate × MonthlyData
  | [], mk => (emptyAgg, [(mk, emptyAgg)])
  | (mk', a) :: rest, mk =>
    if mk' = mk then (a, (mk', a) :: rest)
    else
      let r := mdGet rest mk
      (r.1, (mk', a) :: r.2)

/-- Reflect a mutation of the aggregate object back into the mapping
holding it (Python mutates it in place through the shared reference). -/
def mdSet : MonthlyData → String → MonthlyAggregate → MonthlyData
  | [], _, _ => []
  | (mk', a') :: rest, mk, a =>
    if mk' = mk then (mk', a) :: rest else (mk', a') :: mdSet rest mk a

/-- `colorama.Fore.CYAN`. -/
def Fore_CYAN : String := "\x1b[36m"
/-- `colorama.Fore.GREEN`. -/
def Fore_GREEN : String := "\x1b[32m"
/-- `colorama.Fore.MAGENTA`. -/
def Fore_MAGENTA : String := "\x1b[35m"
/-- `colorama.Fore.BLUE`. -/
def Fore_BLUE : String := "\x1b[34m"
/-- `colorama.Fore.YELLOW`. -/
def Fore_YELLOW : String := "\x1b[33m"
/-- `colorama.Style.RESET_ALL`. -/
def Style_RESET_ALL : String := "\x1b[0m"

/-- The `for country, count in top_countries` loop of
`print_monthly_summary`: emitted lines plus the threaded
`country_sectors` state. -/
def countryLines : List (String × CountMap) → List (String × Nat) → List String × List (String × CountMap)
  | st, [] => ([], st)
  | st, (c, cnt) :: rest =>
    let g := csGet st c
    let breakdown := mostCommon g.1 3
    let blines :=
      if breakdown.isEmpty then []
      else ("       " ++ Fore_YELLOW ++ "Affected sectors:") ::
        breakdown.map (fun p => "         * " ++ p.1 ++ ": " ++ toString p.2)
    let r := countryLines g.2 rest
    ((("    - " ++ c ++ ": " ++ toString cnt) :: blines) ++ r.1, r.2)

/-- The body of the `for month in sorted(monthly_data)` loop of
`print_monthly_summary`: one month's lines plus the threaded mapping. -/
def monthLines (md : MonthlyData) (mk : String) : List String × MonthlyData :=
  let g := mdGet md mk
  let data := g.1
  let top_sectors := mostCommon data.sectors 10
  let top_countries := mostCommon data.countries 10
  let cl := countryLines data.country_sectors top_countries
  let lines :=
    ("\n" ++ Fore_CYAN ++ "Month: " ++ mk ++ Style_RESET_ALL) ::
    ("  " ++ Fore_GREEN ++ "Total victims: " ++ toString data.total ++ Style_RESET_ALL) ::
    ("  " ++ Fore_MAGENTA ++ "Top sectors:") ::
    top_sectors.map (fun p => "    - " ++ p.1 ++ ": " ++ toString p.2) ++
    ("  " ++ Fore_BLUE ++ "Top countries:") :: cl.1 ++ [Style_RESET_ALL]
  (lines, mdSet g.2 mk { data with country_sectors := cl.2 })

/-- Iterate `monthLines` over the (pre-materialized) sorted key list. -/
def printMonths : MonthlyData → List String → List String × MonthlyData
  | md, [] => ([], md)
  | md, mk :: rest =>
    let m := monthLines md mk
    let r := printMonths m.2 rest
    (m.1 ++ r.1, r.2)

/-- `print_monthly_summary`: the printed lines, plus the mapping as left
behind by the `defaultdict` accesses. -/
def print_monthly_summary (md : MonthlyData) : List String × MonthlyData :=
  if md.isEmpty then
    ([Fore_YELLOW ++ "No data to display." ++ Style_RESET_ALL], md)
  else printMonths md (sortedKeys (md.map Prod.fst))

/-- One `{"sector": ..., "count": ...}` object. -/
structure SectorCount where
  sector : String
  count : Nat
deriving DecidableEq, Repr

/-- One entry of a month's `top_countries` list. -/
structure CountryEntry where
  country : String
  count : Nat
  top_sectors : List SectorCount
deriving DecidableEq, Repr

/-- One month's JSON object. -/
structure MonthSummary where
  total_victims : Nat
  top_sectors : List SectorCount
  top_countries : List CountryEntry
deriving DecidableEq, Repr

/-- The JSON output: one object keyed by month, in emitted order. -/
abbrev JsonOutput := List (String × MonthSummary)

/-- The `for country, count in top_countries` loop of
`build_json_output`. -/
def countryEntries : List (String × CountMap) → List (String × Nat) → List CountryEntry × List (String × CountMap)
  | st, [] => ([], st)
  | st, (c, cnt) :: rest =>
    let g := csGet st c
    let top_country_sectors := (mostCommon g.1 3).map (fun p => SectorCount.mk p.1 p.2)
    let r := countryEntries g.2 rest
    (CountryEntry.mk c cnt top_country_sectors :: r.1, r.2)

/-- The body of the `for month in sorted(monthly_data)` loop of
`build_json_output`. -/
def jsonMonth (md : MonthlyData) (mk : String) : (String × MonthSummary) × MonthlyData :=
  let g := mdGet md mk
  let data := g.1
  let top_sectors := mostCommon data.sectors 10
  let top_countries := mostCommon data.countries 10
  let ce := countryEntries data.country_sectors top_countries
  ((mk, MonthSummary.mk data.total (top_sectors.map (fun p => SectorCount.mk p.1 p.2)) ce.1),
    mdSet g.2 mk { data with country_sectors := ce.2 })

/-- Iterate `jsonMonth` over the sorted key list. -/
def jsonMonths : MonthlyData → List String → JsonOutput × MonthlyData
  | md, [] => ([], md)
  | md, mk :: rest =>
    let m := jsonMonth md mk
    let r := jsonMonths m.2 rest
    (m.1 :: r.1, r.2)

/-- `build_json_output`: the JSON structure, plus the mapping as left
behind by the `defaultdict` accesses. -/
def build_json_output (md : MonthlyData) : JsonOutput × MonthlyData :=
  jsonMonths md (sortedKeys (md.map Prod.fst))

/-- `", ".join(f"{sector}: {count}" ...)`. -/
def sectorsStr (l : List SectorCount) : String :=
  String.intercalate ", " (l.map (fun i => i.sector ++ ": " ++ toString i.count))

/-- One `f"{country} ({count}): [{sectors_detail}]"` item. -/
def countryStr (ci : CountryEntry) : String :=
  ci.country ++ " (" ++ toString ci.count ++ "): [" ++ sectorsStr ci.top_sectors ++ "]"

/-- `"; ".join(...)` over the country items. -/
def countriesStr (l : List CountryEntry) : String :=
  String.intercalate "; " (l.map countryStr)

/-- One CSV data row (`Total Victims` is stringified only at the byte
level by `csv.DictWriter`, which is plumbing we do not model). -/
structure CsvRow where
  month : String
  totalVictims : Nat
  topSectors : String
  topCountries : String
deriving DecidableEq, Repr

/-- The CSV header row. -/
def csvHeader : List String := ["Month", "Total Victims", "Top Sectors", "Top Countries"]

/-- `json_data[mk]` as a lookup. -/
def jFind (j : JsonOutput) (mk : String) : Option MonthSummary :=
  (j.find? (fun p => p.1 == mk)).map (fun p => p.2)

/-- The row built for one month of `json_data`. -/
def csvRowOf (mk : String) (s : MonthSummary) : CsvRow :=
  CsvRow.mk mk s.total_victims (sectorsStr s.top_sectors) (countriesStr s.top_countries)

/-- `write_csv_output`: the data rows, one per month of `json_data` in
ascending key order.  (`json_data[month]` cannot miss — the keys come
from the mapping itself — so the `getD` default is never used; the
actual byte serialization and the file/stdout choice are handled in
`main`'s result.) -/
def write_csv_output (j : JsonOutput) : List CsvRow :=
  (sortedKeys (j.map Prod.fst)).map
    (fun mk => csvRowOf mk ((jFind j mk).getD (MonthSummary.mk 0 [] [])))

/-! ## Fetcher and driver -/

/-- What the outside world does to the single `requests.get` call: the
request either raises, or yields a response with a status code and a
body whose JSON decoding either succeeds or raises. -/
inductive FetchOutcome where
  | response (status : Nat) (body : Except String (List Victim))
  | exception (msg : String)
deriving Repr

/-- `get_victims_by_group`: printed diagnostics plus the returned
record sequence.  `response.json()` is only consulted on status 200. -/
def get_victims_by_group (outcome : FetchOutcome) : List String × List Victim :=
  match outcome with
  | .response status body =>
    if status = 200 then
      match body with
      | .ok vs => ([], vs)
      | .error e => (["An error occurred: " ++ e], [])
    else (["Error: " ++ toString status], [])
  | .exception e => (["An error occurred: " ++ e], [])

/-- The `--format` choice. -/
inductive OutputFormat where
  | normal
  | json
  | csv
deriving DecidableEq, Repr

/-- A rendered report, before serialization. -/
inductive Report where
  | text (lines : List String)
  | json (j : JsonOutput)
  | csv (header : List String) (rows : List CsvRow)
deriving DecidableEq, Repr

/-- Where a report went. -/
inductive Destination where
  | stdout
  | file (path : String)
deriving DecidableEq, Repr

/-- The observable outcome of one `main` run: diagnostic prints (in
order), whether `process_victims` ran, and the rendered report with its
destination (`none` when the run stopped before rendering).  File-write
exceptions are not modelled (writes succeed). -/
structure RunResult where
  printed : List String
  aggregatorInvoked : Bool
  report : Option (Report × Destination)
deriving DecidableEq, Repr

/-- Did the run write an output file? -/
def RunResult.wroteFile (r : RunResult) : Bool :=
  match r.report with
  | some (_, .file _) => true
  | _ => false

namespace Script

/-- `main`, with the parsed CLI arguments and the fetch outcome as
inputs. -/
def main (group : String) (format : OutputFormat) (output : Option String) (outcome : FetchOutcome) : RunResult :=
  let group_name := group.trim.toLower
  let pre := ["Searching for victims for the group: " ++ group_name ++ " ..."]
  let fetched := get_victims_by_group outcome
  if fetched.2.isEmpty then
    { printed := pre ++ fetched.1 ++
        ["No victims found or an error occurred when querying the ransomware.live API. Is it DOWN?"]
      aggregatorInvoked := false
      report := none }
  else
    let monthly_data := process_victims fetched.2
    match format with
    | .normal =>
      { printed := pre ++ fetched.1
        aggregatorInvoked := true
        report := some (.text (print_monthly_summary monthly_data).1, .stdout) }
    | .json =>
      let oj := (build_json_output monthly_data).1
      match output with
      | some p =>
        { printed := pre ++ fetched.1 ++ ["JSON output successfully saved to file: " ++ p]
          aggregatorInvoked := true
          report := some (.json oj, .file p) }
      | none =>
        { printed := pre ++ fetched.1
          aggregatorInvoked := true
          report := some (.json oj, .stdout) }
    | .csv =>
      let oj := (build_json_output monthly_data).1
      let rows := write_csv_output oj
      match output with
      | some p =>
        { printed := pre ++ fetched.1 ++ ["CSV output successfully saved to: " ++ p]
          aggregatorInvoked := true
          report := some (.csv csvHeader rows, .file p) }
      | none =>
        { printed := pre ++ fetched.1
          aggregatorInvoked := true
          report := some (.csv csvHeader rows, .stdout) }

end Script

/-! ## Specification-side definitions

Derived observations of the data structures above, used to state the
theorems: lookups with the `Counter`/`defaultdict` default, value sums,
the per-month "scan" of the input records, and count views. -/

/-- `Counter[k]` as a read (missing key ↦ 0). -/
def lookupCount : CountMap → String → Nat
  | [], _ => 0
  | (k', v) :: rest, k => if k' = k then v else lookupCount rest k

/-- `sum(counter.values())`. -/
def sumVals : CountMap → Nat
  | [] => 0
  | (_, v) :: rest => v + sumVals rest

/-- Read of the nested mapping (missing key ↦ empty counter). -/
def csLookup : List (String × CountMap) → String → CountMap
  | [], _ => []
  | (c', cm) :: rest, c => if c' = c then cm else csLookup rest c

/-- Non-inserting lookup of a month. -/
def mdFind : MonthlyData → String → Option MonthlyAggregate
  | [], _ => none
  | (mk', a) :: rest, mk => if mk' = mk then some a else mdFind rest mk

/-- A month's aggregate, the default one when the month is absent. -/
def getAggD (md : MonthlyData) (mk : String) : MonthlyAggregate :=
  (mdFind md mk).getD emptyAgg

/-- The `(country, sector)` contributions of the records aggregated
under month `mk`, in scan order. -/
def scanCS (vs : List Victim) (mk : String) : List (String × String) :=
  vs.filterMap (fun v =>
    if monthKeyOf v = some mk then
      some (orNotIdentified v.country, orNotIdentified v.activity)
    else none)

/-- Replay a list of `(country, sector)` contributions onto an
aggregate: the cumulative effect of `updateAgg` over a month's scan. -/
def applyScan (a : MonthlyAggregate) (l : List (String × String)) : MonthlyAggregate :=
  { total := a.total + l.length
    sectors := l.foldl (fun m p => incr m p.2) a.sectors
    countries := l.foldl (fun m p => incr m p.1) a.countries
    country_sectors := l.foldl (fun cs p => csIncr cs p.1 p.2) a.country_sectors }

/-- Append a key if it is new (dict key-creation order). -/
def insNew (ks : List String) (k : String) : List String :=
  if k ∈ ks then ks else ks ++ [k]

/-- The distinct values of a list in order of first occurrence. -/
def firstSeen (l : List String) : List String := l.foldl insNew []

/-- The pure count content of one month: total and the three frequency
tables read extensionally. -/
@[ext]
structure MonthView where
  total : Nat
  secCount : String → Nat
  couCount : String → Nat
  csCount : String → String → Nat

/-- View an aggregate's counts. -/
def viewAgg (a : MonthlyAggregate) : MonthView :=
  { total := a.total
    secCount := fun s => lookupCount a.sectors s
    couCount := fun c => lookupCount a.countries c
    csCount := fun c s => lookupCount (csLookup a.country_sectors c) s }

/-- The count content of an aggregation: which months exist and, for
each, all its counts — everything except insertion/tie-break order. -/
def countView (md : MonthlyData) : String → Option MonthView :=
  fun mk => (mdFind md mk).map viewAgg

/-- `sel` is a top-`n` selection from the frequency table `m`:
right length, counts descending, drawn from `m`, every non-selected
entry bounded by every selected one, and ties kept in `m`'s
(first-insertion) order — the selection's entries of any fixed count
are an initial segment of `m`'s entries of that count. -/
def TopSelection (m : CountMap) (n : Nat) (sel : List (String × Nat)) : Prop :=
  sel.length = min n m.length ∧
  List.Pairwise (fun x y => y.2 ≤ x.2) sel ∧
  (∀ x ∈ sel, x ∈ m) ∧
  (∀ y ∈ m, y ∉ sel → ∀ x ∈ sel, y.2 ≤ x.2) ∧
  (∀ cnt, ∃ k, sel.filter (fun p => p.2 = cnt) = (m.filter (fun p => p.2 = cnt)).take k)

/-! ## Lemmas: counter updates -/

lemma sumVals_incr : ∀ (m : CountMap) (k : String), sumVals (incr m k) = sumVals m + 1
  | [], _ => rfl
  | (k', v) :: rest, k => by
    by_cases h : k' = k
    · simp [incr, h, sumVals]
      omega
    · simp [incr, h, sumVals, sumVals_incr rest k]
      omega

lemma lookupCount_incr : ∀ (m : CountMap) (k k' : String),
    lookupCount (incr m k) k' = lookupCount m k' + (if k = k' then 1 else 0)
  | [], k, k' => by
    by_cases h : k = k' <;> simp [incr, lookupCount, h]
  | (a, v) :: rest, k, k' => by
    by_cases h : a = k
    · subst h
      by_cases h2 : a = k' <;> simp [incr, lookupCount, h2]
    · by_cases h2 : a = k'
      · subst h2
        simp [incr, h, lookupCount]
        intro he
        exact absurd he.symm h
      · simp [incr, h, lookupCount, h2, lookupCount_incr rest k k']

lemma keys_incr : ∀ (m : CountMap) (k : String),
    (incr m k).map Prod.fst = insNew (m.map Prod.fst) k
  | [], k => by simp [incr, insNew]
  | (a, v) :: rest, k => by
    by_cases h : a = k
    · subst h
      simp [incr, insNew]
    · have hne : ¬ k = a := fun he => h he.symm
      simp [incr, h, insNew, keys_incr rest k, hne]
      by_cases hm : k ∈ rest.map Prod.fst <;> simp [hm, hne]

lemma csLookup_csIncr : ∀ (cs : List (String × CountMap)) (c s c' : String),
    csLookup (csIncr cs c s) c' =
      if c = c' then incr (csLookup cs c') s else csLookup cs c'
  | [], c, s, c' => by
    by_cases h : c = c' <;> simp [csIncr, csLookup, h]
  | (a, cm) :: rest, c, s, c' => by
    by_cases h : a = c
    · subst h
      by_cases h2 : a = c' <;> simp [csIncr, csLookup, h2]
    · by_cases h2 : a = c'
      · subst h2
        have hne : ¬ c = a := fun he => h he.symm
        simp [csIncr, h, csLookup, hne]
      · simp [csIncr, h, csLookup, h2, csLookup_csIncr rest c s c']

lemma csKeys_csIncr : ∀ (cs : List (String × CountMap)) (c s : String),
    (csIncr cs c s).map Prod.fst = insNew (cs.map Prod.fst) c
  | [], c, s => by simp [csIncr, insNew]
  | (a, cm) :: rest, c, s => by
    by_cases h : a = c
    · subst h
      simp [csIncr, insNew]
    · have hne : ¬ c = a := fun he => h he.symm
      simp [csIncr, h, insNew, csKeys_csIncr rest c s, hne]
      by_cases hm : c ∈ rest.map Prod.fst <;> simp [hm, hne]

lemma mdFind_mdUpdate : ∀ (md : MonthlyData) (mk s c mk' : String),
    mdFind (mdUpdate md mk s c) mk' =
      if mk = mk' then some (updateAgg (getAggD md mk') s c) else mdFind md mk'
  | [], mk, s, c, mk' => by
    by_cases h : mk = mk' <;> simp [mdUpdate, mdFind, h, getAggD]
  | (a, ag) :: rest, mk, s, c, mk' => by
    by_cases h : a = mk
    · subst h
      by_cases h2 : a = mk' <;> simp [mdUpdate, mdFind, h2, getAggD]
    · by_cases h2 : a = mk'
      · subst h2
        have hne : ¬ mk = a := fun he => h he.symm
        simp [mdUpdate, h, mdFind, hne]
      · simp [mdUpdate, h, mdFind, h2, mdFind_mdUpdate rest mk s c mk', getAggD]

lemma keys_mdUpdate : ∀ (md : MonthlyData) (mk s c : String),
    (mdUpdate md mk s c).map Prod.fst = insNew (md.map Prod.fst) mk
  | [], mk, s, c => by simp [mdUpdate, insNew]
  | (a, ag) :: rest, mk, s, c => by
    by_cases h : a = mk
    · subst h
      simp [mdUpdate, insNew]
    · have hne : ¬ mk = a := fun he => h he.symm
      simp [mdUpdate, h, insNew, keys_mdUpdate rest mk s c, hne]
      by_cases hm : mk ∈ rest.map Prod.fst <;> simp [hm, hne]

/-! ## Lemmas: `defaultdict` reads on present keys -/

lemma mdGet_present : ∀ (md : MonthlyData) (mk : String) (a : MonthlyAggregate),
    mdFind md mk = some a → mdGet md mk = (a, md)
  | [], mk, a => by simp [mdFind]
  | (mk', a') :: rest, mk, a => by
    by_cases h : mk' = mk
    · subst h
      simp [mdFind, mdGet]
    · simp [mdFind, h, mdGet]
      intro hf
      simp [mdGet_present rest mk a hf]

lemma csGet_present : ∀ (cs : List (String × CountMap)) (c : String),
    c ∈ cs.map Prod.fst → csGet cs c = (csLookup cs c, cs)
  | [], c => by simp
  | (c', cm) :: rest, c => by
    by_cases h : c' = c
    · subst h
      simp [csGet, csLookup]
    · intro hm
      have hm2 : c = c' ∨ ∃ x, (c, x) ∈ rest := by simpa using hm
      have : c ∈ rest.map Prod.fst := by
        simpa using hm2.resolve_left (fun he => h he.symm)
      simp [csGet, csLookup, h, csGet_present rest c this]

lemma mdSet_self : ∀ (md : MonthlyData) (mk : String) (a : MonthlyAggregate),
    mdFind md mk = some a → mdSet md mk a = md
  | [], mk, a => by simp [mdSet]
  | (mk', a') :: rest, mk, a => by
    by_cases h : mk' = mk
    · subst h
      simp [mdFind, mdSet]
      intro he
      simp [he]
    · simp [mdFind, h, mdSet]
      exact mdSet_self rest mk a

lemma mem_keys_mdFind : ∀ (md : MonthlyData) (mk : String),
    mk ∈ md.map Prod.fst → ∃ a, mdFind md mk = some a
  | [], mk => by simp
  | (mk', a') :: rest, mk => by
    by_cases h : mk' = mk
    · subst h
      simp [mdFind]
    · intro hm
      have hm2 : mk = mk' ∨ ∃ x, (mk, x) ∈ rest := by simpa using hm
      have : mk ∈ rest.map Prod.fst := by
        simpa using hm2.resolve_left (fun he => h he.symm)
      simpa [mdFind, h] using mem_keys_mdFind rest mk this

/-! ## Lemmas: the scan characterization of `process_victims` -/

lemma applyScan_nil (a : MonthlyAggregate) : applyScan a [] = a := rfl

lemma applyScan_cons (a : MonthlyAggregate) (c s : String) (l : List (String × String)) :
    applyScan a ((c, s) :: l) = applyScan (updateAgg a s c) l := by
  simp only [applyScan, updateAgg, List.foldl_cons, List.length_cons]
  congr 1
  omega

/-- Master lemma: a month's aggregate after folding the loop body is the
starting aggregate with the month's scan replayed onto it. -/
lemma getAggD_foldl : ∀ (vs : List Victim) (md : MonthlyData) (mk : String),
    getAggD (vs.foldl stepVictim md) mk = applyScan (getAggD md mk) (scanCS vs mk)
  | [], md, mk => by simp [scanCS, applyScan_nil]
  | v :: vs, md, mk => by
    rw [List.foldl_cons, getAggD_foldl vs (stepVictim md v) mk]
    rcases hv : monthKeyOf v with _ | mk'
    · have hstep : stepVictim md v = md := by simp [stepVictim, hv]
      have hscan : scanCS (v :: vs) mk = scanCS vs mk := by
        simp [scanCS, hv]
      rw [hstep, hscan]
    · by_cases he : mk' = mk
      · subst he
        have hstep : stepVictim md v =
            mdUpdate md mk' (orNotIdentified v.activity) (orNotIdentified v.country) := by
          simp [stepVictim, hv]
        have hscan : scanCS (v :: vs) mk' =
            (orNotIdentified v.country, orNotIdentified v.activity) :: scanCS vs mk' := by
          simp [scanCS, hv]
        rw [hstep, hscan, applyScan_cons]
        congr 1
        simp [getAggD, mdFind_mdUpdate]
      · have hstep : stepVictim md v =
            mdUpdate md mk' (orNotIdentified v.activity) (orNotIdentified v.country) := by
          simp [stepVictim, hv]
        have hscan : scanCS (v :: vs) mk = scanCS vs mk := by
          simp [scanCS, hv, he]
        rw [hstep, hscan]
        congr 1
        simp [getAggD, mdFind_mdUpdate, he]

/-- A month is absent from the fold result iff it was absent before and
no record of the batch maps to it. -/
lemma mdFind_foldl_none : ∀ (vs : List Victim) (md : MonthlyData) (mk : String),
    mdFind (vs.foldl stepVictim md) mk = none ↔
      (mdFind md mk = none ∧ scanCS vs mk = [])
  | [], md, mk => by simp [scanCS]
  | v :: vs, md, mk => by
    rw [List.foldl_cons, mdFind_foldl_none vs (stepVictim md v) mk]
    rcases hv : monthKeyOf v with _ | mk'
    · have hstep : stepVictim md v = md := by simp [stepVictim, hv]
      have hscan : scanCS (v :: vs) mk = scanCS vs mk := by simp [scanCS, hv]
      rw [hstep, hscan]
    · have hstep : stepVictim md v =
          mdUpdate md mk' (orNotIdentified v.activity) (orNotIdentified v.country) := by
        simp [stepVictim, hv]
      by_cases he : mk' = mk
      · subst he
        have hscan : scanCS (v :: vs) mk' ≠ [] := by
          simp [scanCS, hv]
        rw [hstep]
        simp [mdFind_mdUpdate, hscan]
      · have hscan : scanCS (v :: vs) mk = scanCS vs mk := by
          simp [scanCS, hv, he]
        rw [hstep, hscan]
        simp [mdFind_mdUpdate, he]

/-! ## Lemmas: counts, sums and keys of replayed scans -/

lemma lookupCount_foldl_incr {α : Type} (f : α → String) :
    ∀ (l : List α) (acc : CountMap) (k : String),
      lookupCount (l.foldl (fun m x => incr m (f x)) acc) k =
        lookupCount acc k + l.countP (fun x => f x = k)
  | [], acc, k => by simp
  | x :: l, acc, k => by
    rw [List.foldl_cons, lookupCount_foldl_incr f l (incr acc (f x)) k,
      lookupCount_incr, List.countP_cons]
    by_cases h : f x = k
    all_goals simp [h]
    all_goals omega

lemma sumVals_foldl_incr {α : Type} (f : α → String) :
    ∀ (l : List α) (acc : CountMap),
      sumVals (l.foldl (fun m x => incr m (f x)) acc) = sumVals acc + l.length
  | [], acc => by simp
  | x :: l, acc => by
    rw [List.foldl_cons, sumVals_foldl_incr f l (incr acc (f x)), sumVals_incr]
    simp
    omega

lemma keys_foldl_incr {α : Type} (f : α → String) :
    ∀ (l : List α) (acc : CountMap),
      (l.foldl (fun m x => incr m (f x)) acc).map Prod.fst =
        (l.map f).foldl insNew (acc.map Prod.fst)
  | [], acc => by simp
  | x :: l, acc => by
    rw [List.foldl_cons, keys_foldl_incr f l (incr acc (f x)), keys_incr,
      List.map_cons, List.foldl_cons]

lemma csLookup_foldl :
    ∀ (l : List (String × String)) (acc : List (String × CountMap)) (c : String),
      csLookup (l.foldl (fun cs p => csIncr cs p.1 p.2) acc) c =
        (l.filter (fun p => p.1 = c)).foldl (fun m p => incr m p.2) (csLookup acc c)
  | [], acc, c => by simp
  | (a, b) :: l, acc, c => by
    rw [List.foldl_cons, csLookup_foldl l (csIncr acc a b) c, csLookup_csIncr]
    by_cases h : a = c <;> simp [h, List.filter_cons]

lemma csKeys_foldl :
    ∀ (l : List (String × String)) (acc : List (String × CountMap)),
      (l.foldl (fun cs p => csIncr cs p.1 p.2) acc).map Prod.fst =
        (l.map Prod.fst).foldl insNew (acc.map Prod.fst)
  | [], acc => by simp
  | (a, b) :: l, acc => by
    rw [List.foldl_cons, csKeys_foldl l (csIncr acc a b), csKeys_csIncr,
      List.map_cons, List.foldl_cons]

/-- The aggregate of a month present in `process_victims vs` is exactly
the month's scan replayed onto the empty aggregate. -/
lemma mdFind_process_eq (vs : List Victim) (mk : String) (a : MonthlyAggregate)
    (h : mdFind (process_victims vs) mk = some a) :
    a = applyScan emptyAgg (scanCS vs mk) := by
  have := getAggD_foldl vs [] mk
  rw [show process_victims vs = vs.foldl stepVictim [] from rfl] at h
  rw [getAggD, h] at this
  simpa [getAggD, mdFind] using this

/-! ## Claim theorems -/

/-- C1: for every input record sequence and every month key in the
aggregation produced by `process_victims`, the month's `total` equals
the sum of the values of its sector table and of its country table, and
for every country the values of its nested sector table sum to the
country's count (for countries not present both sides are 0, so the
universal form subsumes "present in that month"). -/
theorem process_victims_month_sums (vs : List Victim) (mk : String) (a : MonthlyAggregate)
    (h : mdFind (process_victims vs) mk = some a) :
    sumVals a.sectors = a.total ∧ sumVals a.countries = a.total ∧
      ∀ c, sumVals (csLookup a.country_sectors c) = lookupCount a.countries c := by
  have ha := mdFind_process_eq vs mk a h
  subst ha
  refine ⟨?_, ?_, fun c => ?_⟩
  · simp only [applyScan, emptyAgg]
    rw [sumVals_foldl_incr (fun p : String × String => p.2)]
    simp [sumVals]
  · simp only [applyScan, emptyAgg]
    rw [sumVals_foldl_incr (fun p : String × String => p.1)]
    simp [sumVals]
  · simp only [applyScan, emptyAgg]
    rw [csLookup_foldl, lookupCount_foldl_incr (fun p : String × String => p.1)]
    rw [sumVals_foldl_incr (fun p : String × String => p.2)]
    simp [csLookup, lookupCount, sumVals, List.countP_eq_length_filter]

/-- Witness for C1 at a concrete run. -/
theorem process_victims_month_sums_witness :
    mdFind (process_victims
        [⟨some "2023-01-05", some "Healthcare", some "US"⟩,
         ⟨some "2023-01-20", some "Healthcare", some "US"⟩,
         ⟨some "2023-02-01", some "Finance", some "DE"⟩]) "2023-01" =
      some ⟨2, [("Healthcare", 2)], [("US", 2)], [("US", [("Healthcare", 2)])]⟩ ∧
    (sumVals [("Healthcare", 2)] = 2 ∧ sumVals [("US", 2)] = 2 ∧
      ∀ c, sumVals (csLookup [("US", [("Healthcare", 2)])] c) =
        lookupCount [("US", 2)] c) :=
  ⟨by decide,
    process_victims_month_sums
      [⟨some "2023-01-05", some "Healthcare", some "US"⟩,
       ⟨some "2023-01-20", some "Healthcare", some "US"⟩,
       ⟨some "2023-02-01", some "Finance", some "DE"⟩] "2023-01"
      ⟨2, [("Healthcare", 2)], [("US", 2)], [("US", [("Healthcare", 2)])]⟩ (by decide)⟩

/-- C2: a record whose `discovered` is missing, falsy, or fails
ISO-8601 parsing contributes to no month: deleting it from the input
leaves the whole aggregation unchanged. -/
theorem process_victims_drops_unparsable (xs ys : List Victim) (v : Victim)
    (h : v.discovered = none ∨ v.discovered = some "" ∨
      ∃ s, v.discovered = some s ∧ fromisoformat s = none) :
    process_victims (xs ++ v :: ys) = process_victims (xs ++ ys) := by
  have hmk : monthKeyOf v = none := by
    rcases h with h | h | ⟨s, hs, hp⟩
    · simp [monthKeyOf, h]
    · simp [monthKeyOf, h]
    · simp [monthKeyOf, hs, hp]
  simp [process_victims, List.foldl_append, stepVictim, hmk]

/-- Witness for C2: an unparsable `discovered` value is dropped. -/
theorem process_victims_drops_unparsable_witness :
    (∃ s, (Victim.mk (some "not-a-date") (some "Tech") (some "FR")).discovered = some s ∧
        fromisoformat s = none) ∧
    process_victims
        [⟨some "2023-01-05", some "Healthcare", some "US"⟩,
         ⟨some "not-a-date", some "Tech", some "FR"⟩,
         ⟨some "2023-02-01", some "Finance", some "DE"⟩] =
      process_victims
        [⟨some "2023-01-05", some "Healthcare", some "US"⟩,
         ⟨some "2023-02-01", some "Finance", some "DE"⟩] :=
  ⟨⟨"not-a-date", rfl, by decide⟩,
    process_victims_drops_unparsable
      [⟨some "2023-01-05", some "Healthcare", some "US"⟩]
      [⟨some "2023-02-01", some "Finance", some "DE"⟩]
      ⟨some "not-a-date", some "Tech", some "FR"⟩
      (Or.inr (Or.inr ⟨"not-a-date", rfl, by decide⟩))⟩

/-- C3: for an aggregated record, a missing or falsy `activity` field
makes the literal "Not Identified" the sector used in the month's three
tables (sector table and, via `updateAgg`, the nested per-country
table), and likewise a missing or falsy `country` field makes
"Not Identified" the country used; replacing the falsy field by the
literal leaves the aggregation unchanged. -/
theorem process_victims_not_identified (xs ys : List Victim) (v : Victim) :
    ((v.activity = none ∨ v.activity = some "") →
      (∀ md mk, monthKeyOf v = some mk →
        stepVictim md v = mdUpdate md mk "Not Identified" (orNotIdentified v.country)) ∧
      process_victims (xs ++ v :: ys) =
        process_victims (xs ++ { v with activity := some "Not Identified" } :: ys)) ∧
    ((v.country = none ∨ v.country = some "") →
      (∀ md mk, monthKeyOf v = some mk →
        stepVictim md v = mdUpdate md mk (orNotIdentified v.activity) "Not Identified") ∧
      process_victims (xs ++ v :: ys) =
        process_victims (xs ++ { v with country := some "Not Identified" } :: ys)) := by
  constructor
  · intro h
    have hact : orNotIdentified v.activity = "Not Identified" := by
      rcases h with h | h <;> simp [orNotIdentified, h]
    constructor
    · intro md mk hmk
      simp [stepVictim, hmk, hact]
    · have hkey : monthKeyOf { v with activity := some "Not Identified" } = monthKeyOf v := rfl
      have hstep : ∀ md, stepVictim md { v with activity := some "Not Identified" } = stepVictim md v := by
        intro md
        simp only [stepVictim, hkey]
        cases monthKeyOf v with
        | none => rfl
        | some mk =>
          rw [hact]
          simp [orNotIdentified]
      simp [process_victims, List.foldl_append, hstep]
  · intro h
    have hcou : orNotIdentified v.country = "Not Identified" := by
      rcases h with h | h <;> simp [orNotIdentified, h]
    constructor
    · intro md mk hmk
      simp [stepVictim, hmk, hcou]
    · have hkey : monthKeyOf { v with country := some "Not Identified" } = monthKeyOf v := rfl
      have hstep : ∀ md, stepVictim md { v with country := some "Not Identified" } = stepVictim md v := by
        intro md
        simp only [stepVictim, hkey]
        cases monthKeyOf v with
        | none => rfl
        | some mk =>
          rw [hcou]
          simp [orNotIdentified]
      simp [process_victims, List.foldl_append, hstep]

/-- Witness for C3 at a concrete record with both fields absent. -/
theorem process_victims_not_identified_witness :
    ((Victim.mk (some "2023-03-07") none none).activity = none ∨
      (Victim.mk (some "2023-03-07") none none).activity = some "") ∧
    (∀ md mk, monthKeyOf (Victim.mk (some "2023-03-07") none none) = some mk →
      stepVictim md (Victim.mk (some "2023-03-07") none none) =
        mdUpdate md mk "Not Identified"
          (orNotIdentified (Victim.mk (some "2023-03-07") none none).country)) ∧
    process_victims ([] ++ Victim.mk (some "2023-03-07") none none :: []) =
      process_victims
        ([] ++ { Victim.mk (some "2023-03-07") none none with
          activity := some "Not Identified" } :: []) := by
  have h := (process_victims_not_identified [] [] (Victim.mk (some "2023-03-07") none none)).1
    (Or.inl rfl)
  exact ⟨Or.inl rfl, h.1, h.2⟩

/-- C4: reordering the input records changes no month key and no count
(total, per-sector, per-country, per-country-per-sector) — the whole
count view of the aggregation is permutation-invariant; only
insertion order (hence tie-break order in later ranking) may differ. -/
theorem process_victims_perm_counts (vs1 vs2 : List Victim) (h : vs1.Perm vs2) :
    countView (process_victims vs1) = countView (process_victims vs2) := by
  funext mk
  have hscan : (scanCS vs1 mk).Perm (scanCS vs2 mk) := h.filterMap _
  have hn1 : mdFind (process_victims vs1) mk = none ↔ scanCS vs1 mk = [] := by
    simpa [mdFind] using mdFind_foldl_none vs1 [] mk
  have hn2 : mdFind (process_victims vs2) mk = none ↔ scanCS vs2 mk = [] := by
    simpa [mdFind] using mdFind_foldl_none vs2 [] mk
  cases hf1 : mdFind (process_victims vs1) mk with
  | none =>
    have h1 : scanCS vs1 mk = [] := hn1.mp hf1
    have h2 : scanCS vs2 mk = [] := ((h1 ▸ hscan).symm).eq_nil
    simp [countView, hf1, hn2.mpr h2]
  | some a1 =>
    cases hf2 : mdFind (process_victims vs2) mk with
    | none =>
      have h2 : scanCS vs2 mk = [] := hn2.mp hf2
      have h1 : scanCS vs1 mk = [] := (h2 ▸ hscan).eq_nil
      exact absurd (hn1.mpr h1) (by simp [hf1])
    | some a2 =>
      have e1 := mdFind_process_eq vs1 mk a1 hf1
      have e2 := mdFind_process_eq vs2 mk a2 hf2
      subst e1
      subst e2
      simp only [countView, hf1, hf2, Option.map_some']
      congr 1
      apply MonthView.ext
      · simp [viewAgg, applyScan, hscan.length_eq]
      · funext s
        simp only [viewAgg, applyScan]
        rw [lookupCount_foldl_incr (fun p : String × String => p.2),
          lookupCount_foldl_incr (fun p : String × String => p.2)]
        rw [hscan.countP_eq]
      · funext c
        simp only [viewAgg, applyScan]
        rw [lookupCount_foldl_incr (fun p : String × String => p.1),
          lookupCount_foldl_incr (fun p : String × String => p.1)]
        rw [hscan.countP_eq]
      · funext c s
        simp only [viewAgg, applyScan]
        rw [csLookup_foldl, csLookup_foldl,
          lookupCount_foldl_incr (fun p : String × String => p.2),
          lookupCount_foldl_incr (fun p : String × String => p.2)]
        rw [(hscan.filter _).countP_eq]

/-- Witness for C4: a concrete permutation gives the same count view. -/
theorem process_victims_perm_counts_witness :
    ([⟨some "2023-01-05", some "Healthcare", some "US"⟩,
      ⟨some "2023-01-20", some "Finance", some "DE"⟩,
      ⟨some "2023-02-01", some "Finance", some "DE"⟩] : List Victim).Perm
      [⟨some "2023-02-01", some "Finance", some "DE"⟩,
       ⟨some "2023-01-20", some "Finance", some "DE"⟩,
       ⟨some "2023-01-05", some "Healthcare", some "US"⟩] ∧
    countView (process_victims
        [⟨some "2023-01-05", some "Healthcare", some "US"⟩,
         ⟨some "2023-01-20", some "Finance", some "DE"⟩,
         ⟨some "2023-02-01", some "Finance", some "DE"⟩]) =
      countView (process_victims
        [⟨some "2023-02-01", some "Finance", some "DE"⟩,
         ⟨some "2023-01-20", some "Finance", some "DE"⟩,
         ⟨some "2023-01-05", some "Healthcare", some "US"⟩]) :=
  ⟨by decide,
    process_victims_perm_counts
      [⟨some "2023-01-05", some "Healthcare", some "US"⟩,
       ⟨some "2023-01-20", some "Finance", some "DE"⟩,
       ⟨some "2023-02-01", some "Finance", some "DE"⟩]
      [⟨some "2023-02-01", some "Finance", some "DE"⟩,
       ⟨some "2023-01-20", some "Finance", some "DE"⟩,
       ⟨some "2023-01-05", some "Healthcare", some "US"⟩] (by decide)⟩

/-! ## Lemmas: the stable sort behind `most_common` -/

lemma insertBy_perm {α : Type} (lt : α → α → Bool) (x : α) :
    ∀ s : List α, (insertBy lt x s).Perm (x :: s)
  | [] => List.Perm.refl _
  | y :: ys => by
    by_cases h : lt x y = true
    · simp [insertBy, h]
    · simp only [insertBy, h]
      exact ((insertBy_perm lt x ys).cons y).trans (List.Perm.swap x y ys)

lemma sortBy_perm {α : Type} (lt : α → α → Bool) :
    ∀ l : List α, (sortBy lt l).Perm l
  | [] => List.Perm.refl _
  | x :: l => (insertBy_perm lt x (sortBy lt l)).trans ((sortBy_perm lt l).cons x)

lemma pairwise_insertBy {α : Type} {R : α → α → Prop} (lt : α → α → Bool)
    (htt : ∀ a b, lt a b = true → R a b) (hff : ∀ a b, lt a b = false → R b a)
    (htr : ∀ a b c, R a b → R b c → R a c) (x : α) :
    ∀ s : List α, s.Pairwise R → (insertBy lt x s).Pairwise R
  | [], _ => by simp [insertBy]
  | y :: ys, hs => by
    rcases List.pairwise_cons.mp hs with ⟨hy, hys⟩
    by_cases h : lt x y = true
    · simp only [insertBy, h, if_true]
      refine List.pairwise_cons.mpr ⟨?_, hs⟩
      intro z hz
      rcases List.mem_cons.mp hz with hz | hz
      · exact hz ▸ htt x y h
      · exact htr x y z (htt x y h) (hy z hz)
    · simp only [insertBy, h, if_false]
      refine List.pairwise_cons.mpr ⟨?_, pairwise_insertBy lt htt hff htr x ys hys⟩
      intro z hz
      rcases List.mem_cons.mp ((insertBy_perm lt x ys).mem_iff.mp hz) with hz | hz
      · exact hz ▸ hff x y (Bool.not_eq_true _ ▸ h)
      · exact hy z hz

lemma pairwise_sortBy {α : Type} {R : α → α → Prop} (lt : α → α → Bool)
    (htt : ∀ a b, lt a b = true → R a b) (hff : ∀ a b, lt a b = false → R b a)
    (htr : ∀ a b c, R a b → R b c → R a c) :
    ∀ l : List α, (sortBy lt l).Pairwise R
  | [] => by simp [sortBy]
  | x :: l =>
    pairwise_insertBy lt htt hff htr x (sortBy lt l) (pairwise_sortBy lt htt hff htr l)

lemma filter_insertBy_cnt (x : String × Nat) (cnt : Nat) :
    ∀ s : List (String × Nat),
      (insertBy cntBefore x s).filter (fun p => p.2 = cnt) =
        if x.2 = cnt then x :: s.filter (fun p => p.2 = cnt)
        else s.filter (fun p => p.2 = cnt)
  | [] => by
    by_cases h : x.2 = cnt <;> simp [insertBy, List.filter, h]
  | y :: ys => by
    by_cases h : cntBefore x y = true
    · by_cases hx : x.2 = cnt <;> simp [insertBy, h, List.filter_cons, hx]
    · have hxy : x.2 < y.2 := by
        have h2 : ¬ cntBefore x y = true := h
        simp [cntBefore] at h2
        omega
      have hins : insertBy cntBefore x (y :: ys) = y :: insertBy cntBefore x ys := by
        simp [insertBy, h]
      rw [hins, List.filter_cons, filter_insertBy_cnt x cnt ys]
      by_cases hx : x.2 = cnt
      · have hy : ¬ y.2 = cnt := by omega
        simp [List.filter_cons, hx, hy]
      · by_cases hy : y.2 = cnt <;> simp [List.filter_cons, hx, hy]

lemma filter_sortBy_cnt (cnt : Nat) :
    ∀ l : List (String × Nat),
      (sortBy cntBefore l).filter (fun p => p.2 = cnt) = l.filter (fun p => p.2 = cnt)
  | [] => rfl
  | x :: l => by
    show (insertBy cntBefore x (sortBy cntBefore l)).filter _ = _
    rw [filter_insertBy_cnt, filter_sortBy_cnt cnt l]
    by_cases hx : x.2 = cnt <;> simp [List.filter_cons, hx]

lemma filter_take {α : Type} (p : α → Bool) :
    ∀ (l : List α) (n : Nat), ∃ k, (l.take n).filter p = (l.filter p).take k
  | [], n => ⟨0, by simp⟩
  | x :: l, 0 => ⟨0, by simp⟩
  | x :: l, n + 1 => by
    rcases filter_take p l n with ⟨k, hk⟩
    by_cases h : p x = true
    · exact ⟨k + 1, by simp [List.filter_cons, h, hk]⟩
    · exact ⟨k, by simp [List.filter_cons, h, hk]⟩

/-- `most_common(n)` really is a top-`n` selection. -/
lemma topSelection_mostCommon (m : CountMap) (n : Nat) :
    TopSelection m n (mostCommon m n) := by
  have hperm := sortBy_perm cntBefore m
  have hpw : (sortBy cntBefore m).Pairwise (fun x y => y.2 ≤ x.2) := by
    refine pairwise_sortBy cntBefore ?_ ?_ ?_ m
    · intro a b hab
      simpa [cntBefore] using hab
    · intro a b hab
      have : ¬ b.2 ≤ a.2 := by simpa [cntBefore] using hab
      omega
    · intro a b c h1 h2
      omega
  refine ⟨?_, ?_, ?_, ?_, ?_⟩
  · simp [mostCommon, hperm.length_eq]
  · exact List.Pairwise.sublist (List.take_sublist n _) hpw
  · intro x hx
    exact hperm.mem_iff.mp (List.mem_of_mem_take hx)
  · intro y hy hynot x hx
    have hsplit : ((sortBy cntBefore m).take n ++ (sortBy cntBefore m).drop n).Pairwise
        (fun x y => y.2 ≤ x.2) := by
      rw [List.take_append_drop]
      exact hpw
    have hy2 : y ∈ (sortBy cntBefore m).take n ++ (sortBy cntBefore m).drop n := by
      rw [List.take_append_drop]
      exact hperm.mem_iff.mpr hy
    rcases List.mem_append.mp hy2 with hy3 | hy3
    · exact absurd hy3 hynot
    · exact (List.pairwise_append.mp hsplit).2.2 x hx y hy3
  · intro cnt
    rcases filter_take (fun p => decide (p.2 = cnt)) (sortBy cntBefore m) n with ⟨k, hk⟩
    exact ⟨k, by rw [mostCommon, hk, filter_sortBy_cnt]⟩

lemma mem_mostCommon (m : CountMap) (n : Nat) (x : String × Nat)
    (hx : x ∈ mostCommon m n) : x ∈ m :=
  (topSelection_mostCommon m n).2.2.1 x hx

/-- C5: for every month of the aggregation, `most_common` selects the 10
highest-count sectors, the 10 highest-count countries, and — for each
selected country — the 3 highest-count sectors of that country (fewer
when fewer exist: `min`), with ties among equal counts broken by
first-insertion order; and the tables' insertion order is precisely the
order in which each key was first encountered while scanning the
records (`firstSeen` of the month's scan). -/
theorem ranking_selects_top (vs : List Victim) (mk : String) (a : MonthlyAggregate)
    (h : mdFind (process_victims vs) mk = some a) :
    TopSelection a.sectors 10 (mostCommon a.sectors 10) ∧
    TopSelection a.countries 10 (mostCommon a.countries 10) ∧
    (∀ c cnt, (c, cnt) ∈ mostCommon a.countries 10 →
      TopSelection (csLookup a.country_sectors c) 3
        (mostCommon (csLookup a.country_sectors c) 3)) ∧
    a.sectors.map Prod.fst = firstSeen ((scanCS vs mk).map Prod.snd) ∧
    a.countries.map Prod.fst = firstSeen ((scanCS vs mk).map Prod.fst) ∧
    ∀ c, (csLookup a.country_sectors c).map Prod.fst =
      firstSeen (((scanCS vs mk).filter (fun p => p.1 = c)).map Prod.snd) := by
  have ha := mdFind_process_eq vs mk a h
  subst ha
  refine ⟨topSelection_mostCommon _ _, topSelection_mostCommon _ _,
    fun c cnt _ => topSelection_mostCommon _ _, ?_, ?_, fun c => ?_⟩
  · simp only [applyScan]
    rw [keys_foldl_incr (fun p : String × String => p.2)]
    simp [emptyAgg, firstSeen]
  · simp only [applyScan]
    rw [keys_foldl_incr (fun p : String × String => p.1)]
    simp [emptyAgg, firstSeen]
  · simp only [applyScan]
    rw [csLookup_foldl, keys_foldl_incr (fun p : String × String => p.2)]
    simp [emptyAgg, csLookup, firstSeen]

/-- Witness for C5 at a concrete month with a tie (two sectors of count
1 keep first-encounter order). -/
theorem ranking_selects_top_witness :
    mdFind (process_victims
        [⟨some "2023-01-05", some "Healthcare", some "US"⟩,
         ⟨some "2023-01-09", some "Finance", some "US"⟩,
         ⟨some "2023-01-11", some "Finance", some "DE"⟩]) "2023-01" =
      some ⟨3, [("Healthcare", 1), ("Finance", 2)], [("US", 2), ("DE", 1)],
        [("US", [("Healthcare", 1), ("Finance", 1)]), ("DE", [("Finance", 1)])]⟩ ∧
    TopSelection [("Healthcare", 1), ("Finance", 2)] 10
      (mostCommon [("Healthcare", 1), ("Finance", 2)] 10) := by
  have h : mdFind (process_victims
      [⟨some "2023-01-05", some "Healthcare", some "US"⟩,
       ⟨some "2023-01-09", some "Finance", some "US"⟩,
       ⟨some "2023-01-11", some "Finance", some "DE"⟩]) "2023-01" =
      some ⟨3, [("Healthcare", 1), ("Finance", 2)], [("US", 2), ("DE", 1)],
        [("US", [("Healthcare", 1), ("Finance", 1)]), ("DE", [("Finance", 1)])]⟩ := by
    decide
  exact ⟨h, (ranking_selects_top
    [⟨some "2023-01-05", some "Healthcare", some "US"⟩,
     ⟨some "2023-01-09", some "Finance", some "US"⟩,
     ⟨some "2023-01-11", some "Finance", some "DE"⟩] "2023-01"
    ⟨3, [("Healthcare", 1), ("Finance", 2)], [("US", 2), ("DE", 1)],
      [("US", [("Healthcare", 1), ("Finance", 1)]), ("DE", [("Finance", 1)])]⟩ h).1⟩

/-! ## Lemmas: the presenters leave the aggregation untouched -/

lemma countryLines_state (st : List (String × CountMap)) :
    ∀ top : List (String × Nat), (∀ p ∈ top, p.1 ∈ st.map Prod.fst) →
      (countryLines st top).2 = st
  | [] => fun _ => rfl
  | (c, cnt) :: rest => by
    intro hmem
    have hc : c ∈ st.map Prod.fst := hmem (c, cnt) (List.mem_cons_self _ _)
    simp only [countryLines, csGet_present st c hc]
    exact countryLines_state st rest (fun p hp => hmem p (List.mem_cons_of_mem _ hp))

lemma countryEntries_state (st : List (String × CountMap)) :
    ∀ top : List (String × Nat), (∀ p ∈ top, p.1 ∈ st.map Prod.fst) →
      (countryEntries st top).2 = st
  | [] => fun _ => rfl
  | (c, cnt) :: rest => by
    intro hmem
    have hc : c ∈ st.map Prod.fst := hmem (c, cnt) (List.mem_cons_self _ _)
    simp only [countryEntries, csGet_present st c hc]
    exact countryEntries_state st rest (fun p hp => hmem p (List.mem_cons_of_mem _ hp))

lemma monthLines_state (md : MonthlyData) (mk : String) (a : MonthlyAggregate)
    (hf : mdFind md mk = some a)
    (hkeys : ∀ c ∈ a.countries.map Prod.fst, c ∈ a.country_sectors.map Prod.fst) :
    (monthLines md mk).2 = md := by
  have hmem : ∀ p ∈ mostCommon a.countries 10, p.1 ∈ a.country_sectors.map Prod.fst := by
    intro p hp
    exact hkeys p.1 (List.mem_map_of_mem Prod.fst (mem_mostCommon _ _ p hp))
  simp only [monthLines, mdGet_present md mk a hf, countryLines_state _ _ hmem]
  exact mdSet_self md mk a hf

lemma jsonMonth_state (md : MonthlyData) (mk : String) (a : MonthlyAggregate)
    (hf : mdFind md mk = some a)
    (hkeys : ∀ c ∈ a.countries.map Prod.fst, c ∈ a.country_sectors.map Prod.fst) :
    (jsonMonth md mk).2 = md := by
  have hmem : ∀ p ∈ mostCommon a.countries 10, p.1 ∈ a.country_sectors.map Prod.fst := by
    intro p hp
    exact hkeys p.1 (List.mem_map_of_mem Prod.fst (mem_mostCommon _ _ p hp))
  simp only [jsonMonth, mdGet_present md mk a hf, countryEntries_state _ _ hmem]
  exact mdSet_self md mk a hf

lemma printMonths_state (md : MonthlyData)
    (hgood : ∀ mk a, mdFind md mk = some a →
      ∀ c ∈ a.countries.map Prod.fst, c ∈ a.country_sectors.map Prod.fst) :
    ∀ ks : List String, (∀ mk ∈ ks, ∃ a, mdFind md mk = some a) →
      (printMonths md ks).2 = md
  | [] => fun _ => rfl
  | mk :: rest => by
    intro hks
    obtain ⟨a, ha⟩ := hks mk (List.mem_cons_self _ _)
    simp only [printMonths, monthLines_state md mk a ha (hgood mk a ha)]
    exact printMonths_state md hgood rest (fun mk2 h2 => hks mk2 (List.mem_cons_of_mem _ h2))

lemma jsonMonths_state (md : MonthlyData)
    (hgood : ∀ mk a, mdFind md mk = some a →
      ∀ c ∈ a.countries.map Prod.fst, c ∈ a.country_sectors.map Prod.fst) :
    ∀ ks : List String, (∀ mk ∈ ks, ∃ a, mdFind md mk = some a) →
      (jsonMonths md ks).2 = md
  | [] => fun _ => rfl
  | mk :: rest => by
    intro hks
    obtain ⟨a, ha⟩ := hks mk (List.mem_cons_self _ _)
    simp only [jsonMonths, jsonMonth_state md mk a ha (hgood mk a ha)]
    exact jsonMonths_state md hgood rest (fun mk2 h2 => hks mk2 (List.mem_cons_of_mem _ h2))

/-- In every month built by `process_victims`, the country table and the
nested country→sector table hold exactly the same keys (in the same
first-encounter order). -/
lemma process_keysOk (vs : List Victim) (mk : String) (a : MonthlyAggregate)
    (h : mdFind (process_victims vs) mk = some a) :
    ∀ c ∈ a.countries.map Prod.fst, c ∈ a.country_sectors.map Prod.fst := by
  have ha := mdFind_process_eq vs mk a h
  subst ha
  intro c hc
  have h1 : (applyScan emptyAgg (scanCS vs mk)).countries.map Prod.fst =
      ((scanCS vs mk).map Prod.fst).foldl insNew [] := by
    simp only [applyScan]
    rw [keys_foldl_incr (fun p : String × String => p.1)]
    simp [emptyAgg]
  have h2 : (applyScan emptyAgg (scanCS vs mk)).country_sectors.map Prod.fst =
      ((scanCS vs mk).map Prod.fst).foldl insNew [] := by
    simp only [applyScan]
    rw [csKeys_foldl]
    simp [emptyAgg]
  rw [h1] at hc
  rw [h2]
  exact hc

/-- Months iterated by the presenters are present in the mapping. -/
lemma sortedKeys_present (md : MonthlyData) :
    ∀ mk ∈ sortedKeys (md.map Prod.fst), ∃ a, mdFind md mk = some a := by
  intro mk hmk
  exact mem_keys_mdFind md mk ((sortBy_perm strBefore _).mem_iff.mp hmk)

/-- C9: once built, the aggregation is never mutated: rendering with the
text presenter or with the JSON shaping step (whose output the CSV
presenter consumes), including all nested `defaultdict` lookups of each
top country's sector table, returns the aggregation unchanged. -/
theorem presenters_preserve_aggregation (vs : List Victim) :
    (print_monthly_summary (process_victims vs)).2 = process_victims vs ∧
    (build_json_output (process_victims vs)).2 = process_victims vs := by
  have hgood : ∀ mk a, mdFind (process_victims vs) mk = some a →
      ∀ c ∈ a.countries.map Prod.fst, c ∈ a.country_sectors.map Prod.fst :=
    fun mk a h => process_keysOk vs mk a h
  constructor
  · unfold print_monthly_summary
    cases he : (process_victims vs).isEmpty
    · simp only [he, Bool.false_eq_true, if_false]
      exact printMonths_state _ hgood _ (sortedKeys_present _)
    · simp [he]
  · exact jsonMonths_state _ hgood _ (sortedKeys_present _)

/-! ## Lemmas: the string order used by `sorted(...)` -/

lemma charsLt_asymm : ∀ as bs : List Char, charsLt as bs = true → charsLt bs as = false
  | _, [] => by simp [charsLt]
  | [], _ :: _ => by simp [charsLt]
  | a :: as, b :: bs => by
    intro h
    by_cases hab : a.toNat < b.toNat
    · have hba : ¬ b.toNat < a.toNat := by omega
      simp [charsLt, hab, hba]
    · by_cases hba : b.toNat < a.toNat
      · simp [charsLt, hab, hba] at h
      · have heq := charsLt_asymm as bs (by simpa [charsLt, hab, hba] using h)
        simp [charsLt, hab, hba, heq]

lemma charsLt_negtrans : ∀ as bs cs : List Char,
    charsLt bs as = false → charsLt cs bs = false → charsLt cs as = false
  | [], bs, cs => fun _ _ => by simp [charsLt]
  | a :: as, [], cs => fun h1 _ => by simp [charsLt] at h1
  | a :: as, b :: bs, [] => fun _ h2 => by simp [charsLt] at h2
  | a :: as, b :: bs, c :: cs => by
    intro h1 h2
    by_cases hba : b.toNat < a.toNat
    · simp [charsLt, hba] at h1
    · by_cases hcb : c.toNat < b.toNat
      · simp [charsLt, hcb] at h2
      · by_cases hca : c.toNat < a.toNat
        · omega
        · by_cases hac : a.toNat < c.toNat
          · simp [charsLt, hca, hac]
          · have hnab : ¬ a.toNat < b.toNat := by omega
            have hnbc : ¬ b.toNat < c.toNat := by omega
            have r1 : charsLt bs as = false := by
              simpa [charsLt, hba, hnab] using h1
            have r2 : charsLt cs bs = false := by
              simpa [charsLt, hcb, hnbc] using h2
            simpa [charsLt, hca, hac] using charsLt_negtrans as bs cs r1 r2

lemma charsLt_antisymm_eq : ∀ as bs : List Char,
    charsLt as bs = false → charsLt bs as = false → as = bs
  | [], [] => fun _ _ => rfl
  | [], b :: bs => fun h1 _ => by simp [charsLt] at h1
  | a :: as, [] => fun _ h2 => by simp [charsLt] at h2
  | a :: as, b :: bs => by
    intro h1 h2
    by_cases hab : a.toNat < b.toNat
    · simp [charsLt, hab] at h1
    · by_cases hba : b.toNat < a.toNat
      · simp [charsLt, hba] at h2
      · have hrec := charsLt_antisymm_eq as bs (by simpa [charsLt, hab, hba] using h1)
          (by simpa [charsLt, hba, hab] using h2)
        have hn : a.toNat = b.toNat := by omega
        have hc : a = b := by
          apply Char.ext
          exact UInt32.toNat.inj hn
        rw [hc, hrec]

lemma strBefore_antisymm_eq (a b : String) (h1 : strBefore a b = false)
    (h2 : strBefore b a = false) : a = b := by
  have hd := charsLt_antisymm_eq a.data b.data h1 h2
  cases a
  cases b
  simp at hd
  rw [hd]

lemma pairwise_sortedKeys (l : List String) :
    (sortedKeys l).Pairwise (fun a b => strBefore b a = false) := by
  refine pairwise_sortBy strBefore ?_ ?_ ?_ l
  · intro a b hab
    exact charsLt_asymm a.data b.data hab
  · intro a b hab
    exact hab
  · intro a b c hab hbc
    exact charsLt_negtrans a.data b.data c.data hab hbc

lemma insertBy_str_head : ∀ (x : String) (t : List String),
    (∀ y ∈ t, strBefore y x = false) → insertBy strBefore x t = x :: t
  | x, [] => fun _ => rfl
  | x, y :: ys => by
    intro h
    by_cases hxy : strBefore x y = true
    · simp [insertBy, hxy]
    · have hyx : strBefore y x = false := h y (List.mem_cons_self _ _)
      have hxy2 : x = y := strBefore_antisymm_eq x y (Bool.not_eq_true _ ▸ hxy) hyx
      subst hxy2
      have hrec := insertBy_str_head x ys (fun z hz => h z (List.mem_cons_of_mem _ hz))
      simp [insertBy, hxy, hrec]

lemma sortBy_str_id : ∀ l : List String,
    l.Pairwise (fun a b => strBefore b a = false) → sortBy strBefore l = l
  | [] => fun _ => rfl
  | x :: t => by
    intro h
    rcases List.pairwise_cons.mp h with ⟨hx, ht⟩
    show insertBy strBefore x (sortBy strBefore t) = x :: t
    rw [sortBy_str_id t ht]
    exact insertBy_str_head x t hx

/-! ## Lemmas: JSON/CSV format parity -/

lemma jsonMonths_fst : ∀ (md : MonthlyData) (ks : List String),
    ((jsonMonths md ks).1).map Prod.fst = ks
  | md, [] => rfl
  | md, mk :: rest => by
    show ((jsonMonth md mk).1 :: (jsonMonths (jsonMonth md mk).2 rest).1).map Prod.fst
      = mk :: rest
    rw [List.map_cons, jsonMonths_fst]
    rfl

lemma nodup_insNew (ks : List String) (k : String) (h : ks.Nodup) :
    (insNew ks k).Nodup := by
  unfold insNew
  by_cases hm : k ∈ ks
  · simpa [hm] using h
  · simp [hm, List.nodup_append, h]

lemma nodup_keys_step (md : MonthlyData) (v : Victim) (h : (md.map Prod.fst).Nodup) :
    ((stepVictim md v).map Prod.fst).Nodup := by
  unfold stepVictim
  cases monthKeyOf v with
  | none => exact h
  | some mk =>
    rw [keys_mdUpdate]
    exact nodup_insNew _ _ h

lemma nodup_keys_foldl : ∀ (vs : List Victim) (md : MonthlyData),
    (md.map Prod.fst).Nodup → (((vs.foldl stepVictim md)).map Prod.fst).Nodup
  | [], _, h => h
  | v :: vs, md, h =>
    nodup_keys_foldl vs (stepVictim md v) (nodup_keys_step md v h)

lemma nodup_keys_process (vs : List Victim) :
    ((process_victims vs).map Prod.fst).Nodup :=
  nodup_keys_foldl vs [] (by simp)

lemma map_jFind_recover : ∀ j : JsonOutput, (j.map Prod.fst).Nodup →
    (j.map Prod.fst).map
        (fun mk => csvRowOf mk ((jFind j mk).getD (MonthSummary.mk 0 [] []))) =
      j.map (fun p => csvRowOf p.1 p.2)
  | [], _ => rfl
  | (mk0, e) :: rest, h => by
    rcases List.pairwise_cons.mp h with ⟨h0, hrest⟩
    simp only [List.map_cons]
    congr 1
    · simp [jFind, List.find?]
    · have hstep : ∀ mk ∈ rest.map Prod.fst,
          csvRowOf mk ((jFind ((mk0, e) :: rest) mk).getD (MonthSummary.mk 0 [] [])) =
            csvRowOf mk ((jFind rest mk).getD (MonthSummary.mk 0 [] [])) := by
        intro mk hmk
        have hne : ¬ (mk0 == mk) = true := by
          simp only [beq_iff_eq]
          intro he
          exact h0 mk hmk he
        simp [jFind, List.find?, hne]
      rw [List.map_congr_left hstep]
      exact map_jFind_recover rest hrest

/-- C6: the CSV presenter renders exactly the shaped result emitted by
the JSON presenter — one data row per JSON month, in the same order,
whose fields are precisely that month's `total_victims`, `top_sectors`
and `top_countries[].top_sectors` rendered by `csvRowOf`'s fixed string
forms. -/
theorem csv_matches_json (vs : List Victim) :
    write_csv_output (build_json_output (process_victims vs)).1 =
      ((build_json_output (process_victims vs)).1).map (fun p => csvRowOf p.1 p.2) := by
  have hkeys : ((build_json_output (process_victims vs)).1).map Prod.fst =
      sortedKeys ((process_victims vs).map Prod.fst) :=
    jsonMonths_fst _ _
  have hnodup : (((build_json_output (process_victims vs)).1).map Prod.fst).Nodup := by
    rw [hkeys]
    exact ((sortBy_perm strBefore _).nodup_iff).mpr (nodup_keys_process vs)
  have hidem : sortedKeys (((build_json_output (process_victims vs)).1).map Prod.fst) =
      ((build_json_output (process_victims vs)).1).map Prod.fst := by
    rw [hkeys]
    exact sortBy_str_id _ (pairwise_sortedKeys _)
  unfold write_csv_output
  rw [hidem]
  exact map_jFind_recover _ hnodup

/-- C7: the fetcher returns the parsed body exactly on HTTP 200 with a
decodable body; any other status prints `Error: <status>`, and any
transport or decoding exception prints `An error occurred: <msg>`; all
failures return the empty sequence, indistinguishable from a successful
empty fetch. -/
theorem get_victims_contract :
    (∀ vs, get_victims_by_group (.response 200 (.ok vs)) = ([], vs)) ∧
    (∀ st body, st ≠ 200 →
      get_victims_by_group (.response st body) = (["Error: " ++ toString st], [])) ∧
    (∀ e, get_victims_by_group (.response 200 (.error e)) =
      (["An error occurred: " ++ e], [])) ∧
    (∀ e, get_victims_by_group (.exception e) = (["An error occurred: " ++ e], [])) ∧
    (∀ o : FetchOutcome, (∀ vs, o ≠ .response 200 (.ok vs)) →
      (get_victims_by_group o).1 ≠ [] ∧
      (get_victims_by_group o).2 = (get_victims_by_group (.response 200 (.ok []))).2) := by
  refine ⟨fun vs => rfl, ?_, fun e => rfl, fun e => rfl, ?_⟩
  · intro st body h
    simp [get_victims_by_group, h]
  · intro o h
    match o with
    | .response st body =>
      by_cases h200 : st = 200
      · subst h200
        match body with
        | .ok vs => exact absurd rfl (h vs)
        | .error e => simp [get_victims_by_group]
      · simp [get_victims_by_group, h200]
    | .exception e => simp [get_victims_by_group]

/-- Witness for C7: a 404 response yields the diagnostic and `[]`. -/
theorem get_victims_contract_witness :
    (404 ≠ 200) ∧
    get_victims_by_group (.response 404 (.ok [])) = (["Error: 404"], []) := by
  refine ⟨by decide, ?_⟩
  rw [get_victims_contract.2.1 404 (Except.ok []) (by decide)]
  decide

/-- C8: when the fetch yields no records (any failure, or a successful
empty body), `main` prints the user-facing message and stops — the
aggregator never runs, nothing is rendered, no output file is written;
when the fetch yields records, it proceeds to render a report. -/
theorem main_early_exit (g : String) (fmt : OutputFormat) (out : Option String)
    (o : FetchOutcome) :
    ((get_victims_by_group o).2 = [] →
      (Script.main g fmt out o).aggregatorInvoked = false ∧
      (Script.main g fmt out o).report = none ∧
      (Script.main g fmt out o).wroteFile = false ∧
      "No victims found or an error occurred when querying the ransomware.live API. Is it DOWN?"
        ∈ (Script.main g fmt out o).printed) ∧
    ((get_victims_by_group o).2 ≠ [] →
      (Script.main g fmt out o).aggregatorInvoked = true ∧
      (Script.main g fmt out o).report ≠ none) := by
  constructor
  · intro h
    simp [Script.main, h, RunResult.wroteFile]
  · intro h
    have hne : (get_victims_by_group o).2.isEmpty = false := by
      simpa [List.isEmpty_iff] using h
    cases fmt <;> cases out <;> simp [Script.main, hne]

/-- Witness for C8: HTTP 404 stops the run before aggregation. -/
theorem main_early_exit_witness :
    (get_victims_by_group (.response 404 (.ok []))).2 = [] ∧
    ((Script.main "lockbit" .json (some "out.json") (.response 404 (.ok []))).aggregatorInvoked = false ∧
      (Script.main "lockbit" .json (some "out.json") (.response 404 (.ok []))).report = none ∧
      (Script.main "lockbit" .json (some "out.json") (.response 404 (.ok []))).wroteFile = false ∧
      "No victims found or an error occurred when querying the ransomware.live API. Is it DOWN?"
        ∈ (Script.main "lockbit" .json (some "out.json") (.response 404 (.ok []))).printed) :=
  ⟨by decide,
    (main_early_exit "lockbit" .json (some "out.json") (.response 404 (.ok []))).1 (by decide)⟩

/-- C10: a non-empty fetched sequence in which no record has a parsable
`discovered` passes the no-records check (the aggregator runs) and every
presenter renders an empty report: the text presenter prints
"No data to display.", the JSON presenter an empty object, the CSV
presenter only the header row. -/
theorem empty_months_render_empty_report :
    (Script.main "g" .normal none
        (.response 200 (.ok [⟨some "not-a-date", some "Tech", some "FR"⟩]))).aggregatorInvoked
      = true ∧
    "No victims found or an error occurred when querying the ransomware.live API. Is it DOWN?"
      ∉ (Script.main "g" .normal none
        (.response 200 (.ok [⟨some "not-a-date", some "Tech", some "FR"⟩]))).printed ∧
    (Script.main "g" .normal none
        (.response 200 (.ok [⟨some "not-a-date", some "Tech", some "FR"⟩]))).report =
      some (.text [Fore_YELLOW ++ "No data to display." ++ Style_RESET_ALL], .stdout) ∧
    (Script.main "g" .json none
        (.response 200 (.ok [⟨some "not-a-date", some "Tech", some "FR"⟩]))).report =
      some (.json [], .stdout) ∧
    (Script.main "g" .csv none
        (.response 200 (.ok [⟨some "not-a-date", some "Tech", some "FR"⟩]))).report =
      some (.csv csvHeader [], .stdout) := by
  decide
